import Mathlib

/-
Verification of the sequence arbiter of clickingbuttons/sequencer
(src/main.rs). The arbiter state and the per-block admission step
(main.rs lines 128-188) are embedded as executable Lean definitions.

Modelling conventions:
- u64 and u16 values are modelled as Nat. The source builds with overflow
  checks (a wrapping add would abort rather than wrap), and no trace we
  consider approaches 2^64, so plain Nat addition is faithful on all
  non-aborting executions.
- Instant is modelled as a Nat timestamp in milliseconds on a monotone
  clock; Instant.duration_since saturates at zero, which is Nat truncated
  subtraction. Each admitBlock call is modelled as happening at one instant
  (the source calls Instant.now a second time inside the cascade loop,
  line 148, a few nanoseconds later; the single-instant model identifies
  the two readings).
- HashMap BlockMeta BlockHeader, hashed and compared by seqnum only
  (main.rs lines 32-48), is modelled as an association list with at most
  one entry per seqnum. Every map operation the source performs (insert,
  remove by key, iterate to filter and take a minimum, sort the selected
  keys) is insensitive to iteration order, so the list model is faithful.
- Rust HashMap.insert on a present key keeps the stored key and replaces
  only the value; bufInsert mirrors that exactly.
-/

namespace Sequencer

/-- Block of messages as received from a feed line (main.rs lines 14-18):
seqnum is the first sequence number covered, n_messages the count, so the
block spans the range from seqnum to seqnum + n_messages exclusive. -/
structure BlockHeader where
  seqnum : Nat
  n_messages : Nat
deriving DecidableEq, Repr

/-- Key type of the pending map and also the sequence pointer
(main.rs lines 26-30): seqnum plus a timestamp. As the pointer, seqnum is
the next expected sequence number and ts the last-activity instant. -/
structure BlockMeta where
  seqnum : Nat
  ts : Nat
deriving DecidableEq, Repr

/-- The arbiter state: cur_block is the shared sequence pointer
(main.rs line 81) and new_blocks the pending out-of-order map
(main.rs line 85), modelled as an association list from BlockMeta keys to
BlockHeader values with at most one entry per seqnum. -/
structure ArbState where
  cur_block : BlockMeta
  new_blocks : List (BlockMeta × BlockHeader)
deriving DecidableEq, Repr

/-- Initial state: pointer at seqnum 0, empty pending map
(main.rs lines 81-87). -/
def initState : ArbState :=
  { cur_block := { seqnum := 0, ts := 0 }, new_blocks := [] }

/-- Rust HashMap.insert keyed by seqnum (main.rs line 140). When a key with
the same seqnum is present, the stored key - including its ts - is kept and
only the value is replaced; otherwise the new pair is added. The Bool is
true when no entry was present (insert returned None), which is when the
source logs an out-of-order observation (main.rs line 141). -/
def bufInsert (buf : List (BlockMeta × BlockHeader)) (m : BlockMeta)
    (b : BlockHeader) : List (BlockMeta × BlockHeader) × Bool :=
  if ∃ e ∈ buf, e.1.seqnum = m.seqnum then
    (buf.map (fun e => if e.1.seqnum = m.seqnum then (e.1, b) else e), false)
  else
    ((m, b) :: buf, true)

/-- Rust HashMap.remove keyed by seqnum (main.rs lines 145 and 182):
returns the stored value and the remaining map, or none. -/
def bufRemove : List (BlockMeta × BlockHeader) → Nat →
    Option (BlockHeader × List (BlockMeta × BlockHeader))
  | [], _ => none
  | e :: rest, s =>
    if e.1.seqnum = s then some (e.2, rest)
    else
      match bufRemove rest s with
      | none => none
      | some (b, rest2) => some (b, e :: rest2)

/-- Step 1 of the admission critical section (main.rs line 130): overwrite
the pointer timestamp with the current instant, unconditionally. -/
def touch (now : Nat) (σ : ArbState) : ArbState :=
  { σ with cur_block := { σ.cur_block with ts := now } }

/-- Classification of the incoming block (main.rs lines 132-143), run after
touch. Exact match: advance the pointer by n_messages and emit the block.
Future block: insert into the pending map keyed by the block seqnum with
the pointer timestamp as read after the overwrite. Past block: fall
through, dropping it. Returns the new state, the emissions of this step,
and whether the out-of-order log line fired. -/
def classify (σ : ArbState) (b : BlockHeader) :
    ArbState × List BlockHeader × Bool :=
  if b.seqnum = σ.cur_block.seqnum then
    ({ σ with cur_block :=
        { σ.cur_block with seqnum := σ.cur_block.seqnum + b.n_messages } },
      [b], false)
  else if σ.cur_block.seqnum < b.seqnum then
    ({ σ with new_blocks :=
        (bufInsert σ.new_blocks
          { seqnum := b.seqnum, ts := σ.cur_block.ts } b).1 },
      [],
      (bufInsert σ.new_blocks
        { seqnum := b.seqnum, ts := σ.cur_block.ts } b).2)
  else
    (σ, [], false)

/-- One unrolling step of the cascade while-loop (main.rs lines 145-149),
with explicit fuel. Each iteration removes the pending entry keyed exactly
at the pointer seqnum, advances the pointer by the removed value count,
emits it and refreshes the pointer timestamp. Every iteration removes one
entry, so fuel equal to the map size runs the loop to completion exactly
as the source while-let does. -/
def cascadeGo (now : Nat) : Nat → ArbState → ArbState × List BlockHeader
  | 0, σ => (σ, [])
  | fuel + 1, σ =>
    match bufRemove σ.new_blocks σ.cur_block.seqnum with
    | none => (σ, [])
    | some (nb, buf2) =>
      let r := cascadeGo now fuel
        { cur_block :=
            { seqnum := σ.cur_block.seqnum + nb.n_messages, ts := now },
          new_blocks := buf2 }
      (r.1, nb :: r.2)

/-- The cascade flush (main.rs lines 144-149): run the loop with fuel equal
to the pending map size, which is enough to drain every contiguous run. -/
def cascadeFlush (now : Nat) (σ : ArbState) : ArbState × List BlockHeader :=
  cascadeGo now σ.new_blocks.length σ

/-- Insertion into a list sorted ascending by the natural order. -/
def insertSorted (s : Nat) : List Nat → List Nat
  | [] => [s]
  | t :: rest => if s ≤ t then s :: t :: rest else t :: insertSorted s rest

/-- Ascending sort of the selected seqnums, modelling sort_by_key on
seqnum (main.rs line 173); the selected seqnums are pairwise distinct so
the order is fully determined. -/
def sortSeqnums : List Nat → List Nat
  | [] => []
  | s :: rest => insertSorted s (sortSeqnums rest)

/-- The forced-flush loop body (main.rs lines 181-185): for each selected
seqnum in ascending order, remove the entry from the pending map, set the
pointer seqnum to the removed block seqnum plus its count, and emit it.
The pointer timestamp is not refreshed here, as in the source. The none
branch of the removal cannot be reached because the selected seqnums are
distinct keys of the map; the source unwraps there. -/
def flushEach : ArbState → List Nat → ArbState × List BlockHeader
  | σ, [] => (σ, [])
  | σ, s :: rest =>
    match bufRemove σ.new_blocks s with
    | none => flushEach σ rest
    | some (b, buf2) =>
      let r := flushEach
        { cur_block :=
            { seqnum := b.seqnum + b.n_messages, ts := σ.cur_block.ts },
          new_blocks := buf2 }
        rest
      (r.1, b :: r.2)

/-- The timeout flush (main.rs lines 151-186), run only when the pending
map is non-empty. Pass 1 collects every entry whose age relative to the
pointer timestamp strictly exceeds the timeout, folding a minimum seqnum
starting from u64 MAX with a strict comparison, exactly as the source
loop does. If any timed out, pass 2 additionally collects every entry with
seqnum strictly below that minimum, then the combined seqnums are sorted
ascending and force-flushed. -/
def timeoutFlush (timeout : Nat) (σ : ArbState) :
    ArbState × List BlockHeader :=
  if 0 < σ.new_blocks.length then
    let timedOut :=
      σ.new_blocks.filter (fun e => decide (timeout < σ.cur_block.ts - e.1.ts))
    if 0 < timedOut.length then
      let min_seqnum :=
        timedOut.foldl (fun m e => if e.1.seqnum < m then e.1.seqnum else m)
          (2 ^ 64 - 1)
      let stranded :=
        σ.new_blocks.filter (fun e => decide (e.1.seqnum < min_seqnum))
      flushEach σ (sortSeqnums ((timedOut ++ stranded).map (fun e => e.1.seqnum)))
    else (σ, [])
  else (σ, [])

/-- One full admission critical section (main.rs lines 128-188): timestamp
overwrite, classification, cascade flush, then timeout flush. Returns the
final state and the blocks emitted to the output channel, in emission
order. -/
def admitBlock (timeout now : Nat) (b : BlockHeader) (σ : ArbState) :
    ArbState × List BlockHeader :=
  let c := classify (touch now σ) b
  let f1 := cascadeFlush now c.1
  let f2 := timeoutFlush timeout f1.1
  (f2.1, c.2.1 ++ f1.2 ++ f2.2)

/-- Run a sequence of admitBlock calls, each given as an arrival instant and a
block, threading the state and concatenating the emissions. This is the
serialized order in which the feed threads enter the critical section. -/
def runTrace (timeout : Nat) :
    ArbState → List (Nat × BlockHeader) → ArbState × List BlockHeader
  | σ, [] => (σ, [])
  | σ, (now, b) :: rest =>
    let r := admitBlock timeout now b σ
    let r2 := runTrace timeout r.1 rest
    (r2.1, r.2 ++ r2.2)

/-- External events seen by the arbiter: a block received on some feed
line at some instant, or an interval of wall-clock time in which no block
arrives. The source reacts to blocks only: the flush logic sits inside the
per-block loop body (main.rs lines 126-192) and no other thread touches
the pointer or the pending map while the feeds run; the TODO on line 125
records that polling with a timeout is not implemented. Accordingly a
timePass event is a no-op on the arbiter state. -/
inductive FeedEvent where
  | recv : Nat → BlockHeader → FeedEvent
  | timePass : Nat → FeedEvent
deriving DecidableEq, Repr

/-- One event step: a received block runs the admission critical section;
elapsed idle time changes nothing and emits nothing. -/
def stepEvent (timeout : Nat) (σ : ArbState) :
    FeedEvent → ArbState × List BlockHeader
  | FeedEvent.recv now b => admitBlock timeout now b σ
  | FeedEvent.timePass _ => (σ, [])

/-- Run a sequence of external events. -/
def runEvents (timeout : Nat) :
    ArbState → List FeedEvent → ArbState × List BlockHeader
  | σ, [] => (σ, [])
  | σ, ev :: rest =>
    let r := stepEvent timeout σ ev
    let r2 := runEvents timeout r.1 rest
    (r2.1, r.2 ++ r2.2)

/-- The in-order requirement on the emission stream as the spec states it:
each emitted block starts at or after the end of the previous one. -/
def ConsecutiveOK (b1 b2 : BlockHeader) : Prop :=
  b1.seqnum + b1.n_messages ≤ b2.seqnum

instance : DecidableRel ConsecutiveOK := fun b1 b2 =>
  inferInstanceAs (Decidable (b1.seqnum + b1.n_messages ≤ b2.seqnum))

/-- The whole emission list is in order: every pair of consecutive emitted
blocks satisfies ConsecutiveOK. -/
def EmitsInOrder : List BlockHeader → Prop
  | [] => True
  | [_] => True
  | b1 :: b2 :: rest => ConsecutiveOK b1 b2 ∧ EmitsInOrder (b2 :: rest)

instance decEmitsInOrder : (l : List BlockHeader) → Decidable (EmitsInOrder l)
  | [] => isTrue trivial
  | [_] => isTrue trivial
  | b1 :: b2 :: rest =>
    haveI := decEmitsInOrder (b2 :: rest)
    inferInstanceAs (Decidable (ConsecutiveOK b1 b2 ∧ EmitsInOrder (b2 :: rest)))

/-- Two blocks cover disjoint sequence ranges: one ends at or before the
other starts. For blocks with a positive count this is exactly the absence
of a sequence number covered by both. -/
def RangesDisjoint (b1 b2 : BlockHeader) : Prop :=
  b1.seqnum + b1.n_messages ≤ b2.seqnum ∨ b2.seqnum + b2.n_messages ≤ b1.seqnum

instance : DecidableRel RangesDisjoint := fun b1 b2 =>
  inferInstanceAs
    (Decidable (b1.seqnum + b1.n_messages ≤ b2.seqnum ∨
      b2.seqnum + b2.n_messages ≤ b1.seqnum))

/-- Every key and every value of the pending map has seqnum at least N. -/
def KeyLB (N : Nat) (buf : List (BlockMeta × BlockHeader)) : Prop :=
  ∀ e ∈ buf, N ≤ e.1.seqnum ∧ N ≤ e.2.seqnum

instance (N : Nat) (buf : List (BlockMeta × BlockHeader)) :
    Decidable (KeyLB N buf) :=
  inferInstanceAs (Decidable (∀ e ∈ buf, N ≤ e.1.seqnum ∧ N ≤ e.2.seqnum))

/-- The pointer and every pending entry sit at seqnum at least N. -/
def StateLB (N : Nat) (σ : ArbState) : Prop :=
  N ≤ σ.cur_block.seqnum ∧ KeyLB N σ.new_blocks

instance (N : Nat) (σ : ArbState) : Decidable (StateLB N σ) :=
  inferInstanceAs (Decidable (N ≤ σ.cur_block.seqnum ∧ KeyLB N σ.new_blocks))

theorem bufRemove_keyLB {N s : Nat} :
    ∀ {buf : List (BlockMeta × BlockHeader)} {b : BlockHeader}
      {buf2 : List (BlockMeta × BlockHeader)},
      KeyLB N buf → bufRemove buf s = some (b, buf2) →
      N ≤ b.seqnum ∧ KeyLB N buf2 := by
  intro buf
  induction buf with
  | nil => intro b buf2 _ h; simp [bufRemove] at h
  | cons e rest ih =>
    intro b buf2 hLB h
    have hLBe := hLB e (List.mem_cons_self e rest)
    have hLBrest : KeyLB N rest := fun x hx => hLB x (List.mem_cons_of_mem _ hx)
    simp only [bufRemove] at h
    split at h
    · cases h
      exact ⟨hLBe.2, hLBrest⟩
    · split at h
      · cases h
      · rename_i b2 rest2 heq
        cases h
        obtain ⟨h1, h2⟩ := ih hLBrest heq
        refine ⟨h1, ?_⟩
        intro x hx
        rcases List.mem_cons.mp hx with rfl | hx2
        · exact hLBe
        · exact h2 x hx2

theorem bufInsert_keyLB {N : Nat} {buf : List (BlockMeta × BlockHeader)}
    {m : BlockMeta} {b : BlockHeader}
    (hLB : KeyLB N buf) (hm : N ≤ m.seqnum) (hb : N ≤ b.seqnum) :
    KeyLB N (bufInsert buf m b).1 := by
  unfold bufInsert
  split
  · intro x hx
    simp only [List.mem_map] at hx
    obtain ⟨e, he, hxe⟩ := hx
    by_cases hc : e.1.seqnum = m.seqnum
    · rw [if_pos hc] at hxe
      subst hxe
      exact ⟨(hLB e he).1, hb⟩
    · rw [if_neg hc] at hxe
      subst hxe
      exact hLB e he
  · intro x hx
    rcases List.mem_cons.mp hx with rfl | hx2
    · exact ⟨hm, hb⟩
    · exact hLB x hx2

theorem classify_LB {N : Nat} {σ : ArbState} {b : BlockHeader}
    (h : StateLB N σ) :
    StateLB N (classify σ b).1 ∧ ∀ x ∈ (classify σ b).2.1, N ≤ x.seqnum := by
  obtain ⟨hptr, hbuf⟩ := h
  unfold classify
  split
  · rename_i heq
    refine ⟨⟨Nat.le_trans hptr (Nat.le_add_right _ _), hbuf⟩, ?_⟩
    intro x hx
    rcases List.mem_singleton.mp hx with rfl
    exact heq ▸ hptr
  · split
    · rename_i hne hlt
      refine ⟨⟨hptr, ?_⟩, by simp⟩
      exact bufInsert_keyLB hbuf (Nat.le_of_lt (Nat.lt_of_le_of_lt hptr hlt))
        (Nat.le_of_lt (Nat.lt_of_le_of_lt hptr hlt))
    · exact ⟨⟨hptr, hbuf⟩, by simp⟩

theorem cascadeGo_LB {N : Nat} (now : Nat) :
    ∀ (fuel : Nat) (σ : ArbState), StateLB N σ →
      StateLB N (cascadeGo now fuel σ).1 ∧
        ∀ x ∈ (cascadeGo now fuel σ).2, N ≤ x.seqnum := by
  intro fuel
  induction fuel with
  | zero => intro σ h; exact ⟨h, by simp [cascadeGo]⟩
  | succ fuel ih =>
    intro σ h
    obtain ⟨hptr, hbuf⟩ := h
    simp only [cascadeGo]
    split
    · exact ⟨⟨hptr, hbuf⟩, by simp⟩
    · rename_i nb buf2 heq
      obtain ⟨hnb, hbuf2⟩ := bufRemove_keyLB hbuf heq
      obtain ⟨h1, h2⟩ := ih
        { cur_block :=
            { seqnum := σ.cur_block.seqnum + nb.n_messages, ts := now },
          new_blocks := buf2 }
        ⟨Nat.le_trans hptr (Nat.le_add_right _ _), hbuf2⟩
      refine ⟨h1, ?_⟩
      intro x hx
      rcases List.mem_cons.mp hx with rfl | hx2
      · exact hnb
      · exact h2 x hx2

theorem flushEach_LB {N : Nat} :
    ∀ (ms : List Nat) (σ : ArbState), StateLB N σ →
      StateLB N (flushEach σ ms).1 ∧ ∀ x ∈ (flushEach σ ms).2, N ≤ x.seqnum := by
  intro ms
  induction ms with
  | nil => intro σ h; exact ⟨h, by simp [flushEach]⟩
  | cons s rest ih =>
    intro σ h
    obtain ⟨hptr, hbuf⟩ := h
    simp only [flushEach]
    split
    · exact ih σ ⟨hptr, hbuf⟩
    · rename_i b buf2 heq
      obtain ⟨hb, hbuf2⟩ := bufRemove_keyLB hbuf heq
      obtain ⟨h1, h2⟩ := ih
        { cur_block :=
            { seqnum := b.seqnum + b.n_messages, ts := σ.cur_block.ts },
          new_blocks := buf2 }
        ⟨Nat.le_trans hb (Nat.le_add_right _ _), hbuf2⟩
      refine ⟨h1, ?_⟩
      intro x hx
      rcases List.mem_cons.mp hx with rfl | hx2
      · exact hb
      · exact h2 x hx2

theorem timeoutFlush_LB {N : Nat} (timeout : Nat) {σ : ArbState} (h : StateLB N σ) :
    StateLB N (timeoutFlush timeout σ).1 ∧
      ∀ x ∈ (timeoutFlush timeout σ).2, N ≤ x.seqnum := by
  simp only [timeoutFlush]
  split
  · split
    · exact flushEach_LB _ σ h
    · exact ⟨h, by simp⟩
  · exact ⟨h, by simp⟩

theorem admitBlock_LB {N : Nat} (timeout now : Nat) (b : BlockHeader) {σ : ArbState}
    (h : StateLB N σ) :
    StateLB N (admitBlock timeout now b σ).1 ∧
      ∀ x ∈ (admitBlock timeout now b σ).2, N ≤ x.seqnum := by
  have h0 : StateLB N (touch now σ) := ⟨h.1, h.2⟩
  obtain ⟨h1, e1⟩ := classify_LB (b := b) h0
  obtain ⟨h2, e2⟩ := cascadeGo_LB (N := N) now
    (classify (touch now σ) b).1.new_blocks.length (classify (touch now σ) b).1 h1
  obtain ⟨h3, e3⟩ := timeoutFlush_LB timeout h2
  refine ⟨h3, ?_⟩
  intro x hx
  simp only [admitBlock, cascadeFlush, List.mem_append] at hx
  rcases hx with (hx1 | hx2) | hx3
  · exact e1 x hx1
  · exact e2 x hx2
  · exact e3 x hx3

theorem runTrace_LB {N : Nat} (timeout : Nat) :
    ∀ (tr : List (Nat × BlockHeader)) (σ : ArbState), StateLB N σ →
      StateLB N (runTrace timeout σ tr).1 ∧
        ∀ x ∈ (runTrace timeout σ tr).2, N ≤ x.seqnum := by
  intro tr
  induction tr with
  | nil => intro σ h; exact ⟨h, by simp [runTrace]⟩
  | cons p rest ih =>
    intro σ h
    obtain ⟨h1, e1⟩ := admitBlock_LB timeout p.1 p.2 h
    obtain ⟨h2, e2⟩ := ih (admitBlock timeout p.1 p.2 σ).1 h1
    refine ⟨h2, ?_⟩
    intro x hx
    simp only [runTrace, List.mem_append] at hx
    rcases hx with hx1 | hx2
    · exact e1 x hx1
    · exact e2 x hx2

/-- An admission sequence on which the arbiter emits the range of seqnum 6
twice. Blocks 4, 5, 6 arrive late while the pointer waits at 0; block 6
arrives only after 4 and 5 have aged past the 10 ms timeout, so the forced
flush of 4 and 5 moves the pointer to 6 and leaves the fresh entry for 6
sitting in the pending map at the pointer position - the timeout flush does
not re-run the cascade. The redundant second line then delivers 6, which
matches the pointer exactly and is emitted, and once the buffered copy of 6
ages out it is force-flushed and emitted a second time. -/
def bugTrace : List (Nat × BlockHeader) :=
  [(0, ⟨4, 1⟩), (1, ⟨5, 1⟩), (20, ⟨6, 1⟩), (21, ⟨6, 1⟩), (40, ⟨100, 1⟩)]

/-- Claim C1: every pair of consecutive emitted blocks was claimed to
satisfy b2.seqnum at least b1.seqnum + b1.count. On bugTrace the emission
stream is 4, 5, 6, 6: the final pair regresses, refuting the invariant for
the code as written. -/
theorem c1_inorder_invariant_fails :
    (runTrace 10 initState bugTrace).2 =
      [⟨4, 1⟩, ⟨5, 1⟩, ⟨6, 1⟩, ⟨6, 1⟩] ∧
    ¬ EmitsInOrder (runTrace 10 initState bugTrace).2 := by
  decide

/-- Claim C2: the ranges of the emitted blocks were claimed pairwise
disjoint. On bugTrace the block covering seqnum 6 is emitted twice - once
by the exact-match branch and once by the later forced flush of the stale
buffered copy - so the emitted ranges are not pairwise disjoint. -/
theorem c2_no_duplicate_emission_fails :
    (runTrace 10 initState bugTrace).2 =
      [⟨4, 1⟩, ⟨5, 1⟩, ⟨6, 1⟩, ⟨6, 1⟩] ∧
    ¬ List.Pairwise RangesDisjoint (runTrace 10 initState bugTrace).2 := by
  decide

/-- Claim C3, counterexample: from a state whose last activity was at
instant 5, accepting the future block 3 at instant 9 stores admission
timestamp 9 - the now of this call - in the new pending entry, not the
prior activity value 5, because main.rs line 130 overwrites cur_block.ts
before line 138 reads it. -/
theorem c3_prior_activity_counterexample :
    (admitBlock 10 9 ⟨3, 1⟩ { cur_block := { seqnum := 0, ts := 5 }, new_blocks := [] }).1.new_blocks =
      [({ seqnum := 3, ts := 9 }, ⟨3, 1⟩)] ∧ (9 : Nat) ≠ 5 := by
  decide

/-- Claim C3 as amended: when an admitBlock call buffers a future block whose
seqnum is not yet present, the admission timestamp stored with the new
entry is the value of last_activity after the unconditional overwrite,
which is the now of this very call - the wall-clock arrival instant of the
block - and not the prior activity value. -/
theorem c3_admission_timestamp_is_now (σ : ArbState) (b : BlockHeader) (now : Nat)
    (hfut : σ.cur_block.seqnum < b.seqnum)
    (hnew : ∀ e ∈ σ.new_blocks, e.1.seqnum ≠ b.seqnum) :
    (classify (touch now σ) b).1.new_blocks =
      ({ seqnum := b.seqnum, ts := now }, b) :: σ.new_blocks := by
  have hne : ¬ b.seqnum = σ.cur_block.seqnum :=
    fun h => absurd h.symm (Nat.ne_of_lt hfut)
  have habs : ¬ ∃ e ∈ σ.new_blocks, e.1.seqnum = b.seqnum := by
    rintro ⟨e, he, hseq⟩
    exact hnew e he hseq
  simp only [classify, touch, bufInsert, if_neg hne, if_pos hfut, if_neg habs]

/-- Witness for c3_admission_timestamp_is_now at a concrete input. -/
theorem c3_admission_timestamp_witness :
    (0 : Nat) < 3 ∧
    (classify (touch 9 initState) ⟨3, 1⟩).1.new_blocks =
      [({ seqnum := 3, ts := 9 }, ⟨3, 1⟩)] :=
  ⟨by decide,
    c3_admission_timestamp_is_now initState ⟨3, 1⟩ 9 (by decide) (by simp [initState])⟩

/-- Claim C4, counterexample: with block 5 already buffered at admission
timestamp 2, a second arrival of seqnum 5 (with a different payload) at
instant 7 replaces the stored value but keeps the stored key, so the entry
afterwards carries admission timestamp 2, not the timestamp 7 of the later
call - Rust HashMap.insert does not update a present key. -/
theorem c4_overwrite_counterexample :
    (admitBlock 10 7 ⟨5, 3⟩
      { cur_block := { seqnum := 0, ts := 0 },
        new_blocks := [({ seqnum := 5, ts := 2 }, ⟨5, 1⟩)] }).1.new_blocks =
      [({ seqnum := 5, ts := 2 }, ⟨5, 3⟩)] ∧ (2 : Nat) ≠ 7 := by
  decide

/-- Claim C4 as amended: buffering a future block whose seqnum is already
present silently replaces the stored payload in place - the key set of the
map, and in particular the admission timestamp carried by the existing key,
is unchanged - and produces no emission and no out-of-order signal. -/
theorem c4_duplicate_overwrite_keeps_timestamp (σ : ArbState) (b : BlockHeader)
    (now : Nat) (hfut : σ.cur_block.seqnum < b.seqnum)
    (hdup : ∃ e ∈ σ.new_blocks, e.1.seqnum = b.seqnum) :
    classify (touch now σ) b =
      ({ cur_block := { σ.cur_block with ts := now },
         new_blocks := σ.new_blocks.map
           (fun e => if e.1.seqnum = b.seqnum then (e.1, b) else e) },
        [], false) := by
  have hne : ¬ b.seqnum = σ.cur_block.seqnum :=
    fun h => absurd h.symm (Nat.ne_of_lt hfut)
  simp only [classify, touch, bufInsert, if_neg hne, if_pos hfut, if_pos hdup]

/-- Witness for c4_duplicate_overwrite_keeps_timestamp at a concrete
input. -/
theorem c4_duplicate_overwrite_witness :
    (0 : Nat) < 5 ∧
    classify
      (touch 7 { cur_block := { seqnum := 0, ts := 0 },
                 new_blocks := [({ seqnum := 5, ts := 2 }, ⟨5, 1⟩)] }) ⟨5, 3⟩ =
      ({ cur_block := { seqnum := 0, ts := 7 },
         new_blocks := [({ seqnum := 5, ts := 2 }, ⟨5, 3⟩)] }, [], false) :=
  ⟨by decide,
    c4_duplicate_overwrite_keeps_timestamp
      { cur_block := { seqnum := 0, ts := 0 },
        new_blocks := [({ seqnum := 5, ts := 2 }, ⟨5, 1⟩)] }
      ⟨5, 3⟩ 7 (by decide) ⟨({ seqnum := 5, ts := 2 }, ⟨5, 1⟩), by simp⟩⟩

/-- Admissions putting the arbiter at pointer 2 with block 4 freshly
buffered (admission instant 15) and block 7 buffered long ago (admission
instant 5). -/
def c5Setup : List (Nat × BlockHeader) :=
  [(0, ⟨0, 1⟩), (1, ⟨1, 1⟩), (5, ⟨7, 1⟩), (15, ⟨4, 1⟩)]

/-- Claim C5: with entries 4 (too recent to time out) and 7 (past the
10 ms timeout) buffered at pointer 2, the next admitBlock call - here block 100
at instant 16, at which only entry 7 exceeds the timeout - flushes 4 and 7
together in ascending order, because 4 is below the minimum timed-out
seqnum 7 and is therefore stranded; the pointer ends at 8. -/
theorem c5_stranding_pulls_younger :
    (runTrace 10 initState c5Setup).1 =
      { cur_block := { seqnum := 2, ts := 15 },
        new_blocks := [({ seqnum := 4, ts := 15 }, ⟨4, 1⟩),
                       ({ seqnum := 7, ts := 5 }, ⟨7, 1⟩)] } ∧
    admitBlock 10 16 ⟨100, 1⟩ (runTrace 10 initState c5Setup).1 =
      ({ cur_block := { seqnum := 8, ts := 16 },
         new_blocks := [({ seqnum := 100, ts := 16 }, ⟨100, 1⟩)] },
        [⟨4, 1⟩, ⟨7, 1⟩]) := by
  decide

/-- Admissions putting the arbiter at pointer 5 with blocks 7 and 9
buffered at instant 0, blocks 5 and 6 never arriving. -/
def c6Setup : List (Nat × BlockHeader) :=
  [(0, ⟨0, 1⟩), (0, ⟨1, 1⟩), (0, ⟨2, 1⟩), (0, ⟨3, 1⟩), (0, ⟨4, 1⟩),
    (0, ⟨7, 1⟩), (0, ⟨9, 1⟩)]

/-- The arbiter state right after the timeout flush triggered by the
admission of block 100 at instant 11 from the c6Setup state. -/
def c6Post : ArbState :=
  { cur_block := { seqnum := 10, ts := 11 },
    new_blocks := [({ seqnum := 100, ts := 11 }, ⟨100, 1⟩)] }

/-- Claim C6: with blocks 7 and 9 buffered at pointer 5 and more than the
10 ms timeout elapsed, the next accepted block (100 at instant 11)
triggers the timeout pass, which emits 7 then 9 and forces the pointer to
10; and from the resulting state every block emitted by any further
admission sequence has seqnum at least 10, so sequence numbers 5, 6 and 8
are never emitted - a permanent gap. -/
theorem c6_timeout_forces_skip :
    admitBlock 10 11 ⟨100, 1⟩ (runTrace 10 initState c6Setup).1 =
      (c6Post, [⟨7, 1⟩, ⟨9, 1⟩]) ∧
    ∀ (tr : List (Nat × BlockHeader)) (x : BlockHeader),
      x ∈ (runTrace 10 c6Post tr).2 → 10 ≤ x.seqnum := by
  refine ⟨by decide, ?_⟩
  intro tr x hx
  exact (runTrace_LB (N := 10) 10 tr c6Post (by decide)).2 x hx

/-- Witness for c6_timeout_forces_skip: continuing from c6Post with the
in-order block 10 emits it, and the theorem bounds its seqnum. -/
theorem c6_timeout_forces_skip_witness :
    (⟨10, 1⟩ : BlockHeader) ∈ (runTrace 10 c6Post [(12, ⟨10, 1⟩)]).2 ∧
      10 ≤ (10 : Nat) :=
  ⟨by decide, c6_timeout_forces_skip.2 [(12, ⟨10, 1⟩)] ⟨10, 1⟩ (by decide)⟩

/-- Claim C7: accepting blocks 2, 1, 0 in that order within the timeout
window from the initial state emits 0, 1, 2 - accepting 0 cascades through
the buffered 1 and 2 - and leaves the pointer at 3. -/
theorem c7_cascade_resolves_reordering :
    runTrace 10 initState [(0, ⟨2, 1⟩), (1, ⟨1, 1⟩), (2, ⟨0, 1⟩)] =
      ({ cur_block := { seqnum := 3, ts := 2 }, new_blocks := [] },
        [⟨0, 1⟩, ⟨1, 1⟩, ⟨2, 1⟩]) := by
  decide

/-- Claim C8: a past block - seqnum strictly below the pointer - is
dropped by the classification step: no emission, no buffering, pointer
seqnum untouched, no out-of-order signal. In particular a late duplicate
of block 3 arriving after the pointer reached 4 leaves the whole admitBlock
call with no emission and no pointer movement. -/
theorem c8_past_block_dropped :
    (∀ (σ : ArbState) (b : BlockHeader) (now : Nat),
      b.seqnum < σ.cur_block.seqnum →
      classify (touch now σ) b = (touch now σ, [], false)) ∧
    admitBlock 10 4 ⟨3, 1⟩ { cur_block := { seqnum := 4, ts := 3 }, new_blocks := [] } =
      ({ cur_block := { seqnum := 4, ts := 4 }, new_blocks := [] }, []) := by
  refine ⟨?_, by decide⟩
  intro σ b now hpast
  have hne : ¬ b.seqnum = (touch now σ).cur_block.seqnum :=
    Nat.ne_of_lt hpast
  have hnlt : ¬ (touch now σ).cur_block.seqnum < b.seqnum :=
    Nat.not_lt.mpr (Nat.le_of_lt hpast)
  simp only [classify, if_neg hne, if_neg hnlt]

/-- Witness for c8_past_block_dropped at a concrete input. -/
theorem c8_past_block_dropped_witness :
    (3 : Nat) < 4 ∧
    classify (touch 5 { cur_block := { seqnum := 4, ts := 3 }, new_blocks := [] }) ⟨3, 1⟩ =
      (touch 5 { cur_block := { seqnum := 4, ts := 3 }, new_blocks := [] }, [], false) :=
  ⟨by decide,
    c8_past_block_dropped.1
      { cur_block := { seqnum := 4, ts := 3 }, new_blocks := [] } ⟨3, 1⟩ 5 (by decide)⟩

/-- Claim C10: the timeout flush runs only inside the admission of a
block. Modelled as the event semantics of the source loop: wall-clock time
passing without an arriving block is not a transition of the arbiter, so
over any sequence of idle intervals - however long - the state, and in
particular every entry of the pending map, is unchanged and nothing is
emitted. -/
theorem c10_no_background_flush (timeout : Nat) (σ : ArbState) (ds : List Nat) :
    runEvents timeout σ (ds.map FeedEvent.timePass) = (σ, []) := by
  induction ds with
  | nil => rfl
  | cons d rest ih => simp [runEvents, stepEvent, ih]

end Sequencer
